import Mathlib

/-!
# RustGuard — shallow embedding and verification

A shallow embedding of the RustGuard backup/sync engine's core
(`src/crypto.rs`, `src/sync.rs`, `src/error.rs`) together with theorems
settling the specification claims about it.

Conventions of the embedding:
* Bytes are `Nat` values (kept below 256 by construction where relevant);
  byte buffers (`Vec<u8>`, `&[u8]`) are `List Nat`.
* Machine-word arithmetic is `Nat` with explicit `% 4294967296` (2^32).
* `Result<T>` is `Except Error T`.
* Randomness (`rand::thread_rng`) is threaded explicitly as a `Nat` seed;
  `generate_nonce` consumes the seed and returns the 12 nonce bytes plus
  the successor seed, mirroring `rng.fill(&mut nonce)` filling exactly
  `NONCE_SIZE = 12` bytes.
* The external `aes_gcm` crate is modelled by an executable authenticated
  stream cipher: a keystream XOR for the body and a 16-byte keyed tag
  appended to it; decryption re-derives and checks the tag and fails with
  the crate's opaque `aead::Error` exactly when the ciphertext is shorter
  than the tag or the tag does not verify.
* The external `sha2` crate's SHA-256 is implemented in full (FIPS 180-4),
  since `derive_key`, `compute_hash` and `compute_file_hash` use it
  directly.
* The external `password_hash`/`argon2` crates are modelled by an
  executable PHC-string parse predicate and a deterministic verification
  function.
* Filesystem access (`fs::metadata(..).modified()`, `fs::read`) is passed
  in as an explicit function argument (`mtime`, `readFile`).
-/

deriving instance DecidableEq for Except

namespace RustGuard

/-- The error enum of `src/error.rs` (`thiserror`-derived `Error`).
`IoError` carries the display string of the wrapped `std::io::Error`. -/
inductive Error where
  | AuthenticationFailed (msg : String)
  | InvalidCredentials
  | UserNotFound
  | FileNotFound (msg : String)
  | EncryptionError (msg : String)
  | DecryptionError (msg : String)
  | DatabaseError (msg : String)
  | IoError (msg : String)
  | SerializationError (msg : String)
  | InvalidInput (msg : String)
  | SyncError (msg : String)
  | StorageError (msg : String)
  | ConfigError (msg : String)
  | NetworkError (msg : String)
  | ConflictError (msg : String)
  | Internal (msg : String)
deriving DecidableEq, Repr

/-- `CHUNK_SIZE` from `src/crypto.rs` line 14: 1 MiB. -/
def CHUNK_SIZE : Nat := 1024 * 1024

/-- `NONCE_SIZE` from `src/crypto.rs` line 15. -/
def NONCE_SIZE : Nat := 12

/-- `TAG_SIZE` from `src/crypto.rs` line 16. -/
def TAG_SIZE : Nat := 16

/-- Rust's `slice::chunks(s)`: splits a list into consecutive pieces of
`s` elements, the last piece possibly shorter; the empty list yields no
pieces.  (`chunks(0)` panics in Rust and is never called; the model
returns `[]` there, all call sites pass a positive size.) -/
def chunksOf (s : Nat) (l : List Nat) : List (List Nat) :=
  if s = 0 then []
  else if l.isEmpty then []
  else l.take s :: chunksOf s (l.drop s)
termination_by l.length
decreasing_by
  simp only [List.length_drop]
  rename_i hs hl
  have h1 : 0 < l.length := by
    cases l with
    | nil => simp at hl
    | cons a t => simp
  omega

/-! ## SHA-256 (FIPS 180-4), the `sha2` crate's algorithm -/

/-- Right rotation of a 32-bit word (valid for `0 < n < 32`, `x < 2^32`). -/
def rotr32 (n x : Nat) : Nat :=
  (x >>> n) ||| ((x <<< (32 - n)) % 4294967296)

/-- The 64 SHA-256 round constants, in decimal. -/
def K256 : List Nat :=
  [1116352408, 1899447441, 3049323471, 3921009573, 961987163,
   1508970993, 2453635748, 2870763221, 3624381080, 310598401,
   607225278, 1426881987, 1925078388, 2162078206, 2614888103,
   3248222580, 3835390401, 4022224774, 264347078, 604807628,
   770255983, 1249150122, 1555081692, 1996064986, 2554220882,
   2821834349, 2952996808, 3210313671, 3336571891, 3584528711,
   113926993, 338241895, 666307205, 773529912, 1294757372,
   1396182291, 1695183700, 1986661051, 2177026350, 2456956037,
   2730485921, 2820302411, 3259730800, 3345764771, 3516065817,
   3600352804, 4094571909, 275423344, 430227734, 506948616,
   659060556, 883997877, 958139571, 1322822218, 1537002063,
   1747873779, 1955562222, 2024104815, 2227730452, 2361852424,
   2428436474, 2756734187, 3204031479, 3329325298]

/-- The SHA-256 initial hash value, in decimal. -/
def H256 : List Nat :=
  [1779033703, 3144134277, 1013904242, 2773480762,
   1359893119, 2600822924, 528734635, 1541459225]

/-- SHA-256 padding: append `0x80`, zeros to 56 mod 64, then the bit
length as 8 big-endian bytes. -/
def padMessage (ms : List Nat) : List Nat :=
  let bitLen := ms.length * 8
  ms ++ [128] ++ List.replicate ((119 - ms.length % 64) % 64) 0
     ++ (List.range 8).map (fun i => (bitLen >>> (8 * (7 - i))) % 256)

/-- Big-endian 4-byte groups to 32-bit words. -/
def bytesToWords (b : List Nat) : List Nat :=
  (chunksOf 4 b).map (fun w => w.foldl (fun a x => a * 256 + x) 0)

/-- One step of the SHA-256 message-schedule extension. -/
def scheduleStep (w : List Nat) : List Nat :=
  let n := w.length
  let x15 := w.getD (n - 15) 0
  let x2 := w.getD (n - 2) 0
  let s0 := (rotr32 7 x15) ^^^ (rotr32 18 x15) ^^^ (x15 >>> 3)
  let s1 := (rotr32 17 x2) ^^^ (rotr32 19 x2) ^^^ (x2 >>> 10)
  w ++ [(w.getD (n - 16) 0 + s0 + w.getD (n - 7) 0 + s1) % 4294967296]

/-- One SHA-256 compression round on the 8-word working state. -/
def sha256Round (st : List Nat) (kw : Nat × Nat) : List Nat :=
  let a := st.getD 0 0
  let b := st.getD 1 0
  let c := st.getD 2 0
  let d := st.getD 3 0
  let e := st.getD 4 0
  let f := st.getD 5 0
  let g := st.getD 6 0
  let h := st.getD 7 0
  let S1 := (rotr32 6 e) ^^^ (rotr32 11 e) ^^^ (rotr32 25 e)
  let ch := (e &&& f) ^^^ ((e ^^^ 4294967295) &&& g)
  let t1 := (h + S1 + ch + kw.1 + kw.2) % 4294967296
  let S0 := (rotr32 2 a) ^^^ (rotr32 13 a) ^^^ (rotr32 22 a)
  let maj := (a &&& b) ^^^ (a &&& c) ^^^ (b &&& c)
  let t2 := (S0 + maj) % 4294967296
  [(t1 + t2) % 4294967296, a, b, c, (d + t1) % 4294967296, e, f, g]

/-- Compress one 64-byte block into the chaining state. -/
def sha256Compress (h : List Nat) (block : List Nat) : List Nat :=
  let w := scheduleStep^[48] (bytesToWords block)
  let st := (K256.zip w).foldl sha256Round h
  h.zipWith (fun x y => (x + y) % 4294967296) st

/-- A 32-bit word as 4 big-endian bytes. -/
def wordToBytes (w : Nat) : List Nat :=
  [(w >>> 24) % 256, (w >>> 16) % 256, (w >>> 8) % 256, w % 256]

/-- SHA-256 of a byte sequence, as 32 digest bytes. -/
def sha256 (ms : List Nat) : List Nat :=
  ((chunksOf 64 (padMessage ms)).foldl sha256Compress H256).flatMap wordToBytes

/-- One lowercase hex digit, as `hex::encode` produces. -/
def hexDigit (n : Nat) : Char :=
  if n < 10 then Char.ofNat (48 + n) else Char.ofNat (87 + n)

/-- The `hex` crate's `hex::encode`: two lowercase hex digits per byte. -/
def hexEncode (bs : List Nat) : String :=
  String.mk (bs.flatMap (fun b => [hexDigit (b / 16), hexDigit (b % 16)]))

/-! ## Crypto Engine (`src/crypto.rs`) -/

/-- `generate_nonce` (crypto.rs lines 19-24): fills exactly `NONCE_SIZE`
= 12 bytes from the thread RNG.  The RNG is modelled as an explicit
`Nat` seed; the function returns the 12 bytes and the advanced seed. -/
def generate_nonce (seed : Nat) : List Nat × Nat :=
  ((List.range NONCE_SIZE).map (fun i => (seed * 37 + i * 97 + 11) % 256),
   seed + 1)

/-- `derive_key` (crypto.rs lines 27-37): despite the doc comment naming
Argon2, the body is `Sha256(password_bytes ++ salt)`, always `Ok`.
`password.as_bytes()` is the `List Nat` argument. -/
def derive_key (password : List Nat) (salt : List Nat) :
    Except Error (List Nat) :=
  Except.ok (sha256 (password ++ salt))

/-- Modelled from the external `password_hash` crate: `PasswordHash::new`
parses a PHC-format string.  The model accepts exactly the strings that
begin with the `$` PHC prefix and have content after it; on any other
string it fails with the crate's parse error message. -/
def parsePasswordHash (h : String) : Except String String :=
  match h.data with
  | [] => Except.error "password hash string invalid"
  | c :: rest =>
    if c = '$' && !rest.isEmpty then Except.ok h
    else Except.error "password hash string invalid"

/-- Modelled from the external `argon2` crate: `Argon2::default()
.verify_password` is a deterministic function of the password and the
parsed PHC hash; the model's canonical stored hash for password `p` is
the string `$argon2id$` followed by `p`. -/
def argon2Verify (password : String) (parsed : String) : Bool :=
  parsed == "$argon2id$" ++ password

/-- `verify_password` (crypto.rs lines 53-60): parses the stored hash
(the receiver of the surviving `.map_err(..)?` chain at line 55 is
`PasswordHash::new(hash)`), mapping a parse failure to
`Error::EncryptionError` and propagating it with `?`; then returns
`Ok(verify_password(..).is_ok())`. -/
def verify_password (password : String) (hash : String) :
    Except Error Bool :=
  match parsePasswordHash hash with
  | Except.error e => Except.error (Error.EncryptionError e)
  | Except.ok parsed => Except.ok (argon2Verify password parsed)

/-- Modelled from the external `aes_gcm` crate: byte `i` of the
keystream that AES-256-GCM derives from `(key, nonce)`. -/
def ksByte (key nonce : List Nat) (i : Nat) : Nat :=
  ((key ++ nonce).foldl (fun a b => (a * 131 + b + 1) % 4294967296)
      2166136261 + 151 * i) % 256

/-- XOR a buffer against the keystream starting at position `i`. -/
def xorKs (key nonce : List Nat) : Nat → List Nat → List Nat
  | _, [] => []
  | i, b :: bs => (b ^^^ ksByte key nonce i) :: xorKs key nonce (i + 1) bs

/-- Modelled from the external `aes_gcm` crate: the 16-byte
authentication tag over the ciphertext body under `(key, nonce)`. -/
def tagFn (key nonce body : List Nat) : List Nat :=
  (List.range TAG_SIZE).map
    (fun j =>
      ((key ++ nonce ++ body).foldl
          (fun a b => (a * 257 + b + 3) % 1099511627689) 987654323
        + j * 101) % 256)

/-- `encrypt` (crypto.rs lines 63-73): generates a fresh random 12-byte
nonce, encrypts with AES-256-GCM (modelled: keystream XOR plus appended
16-byte tag), and returns `(ciphertext, nonce_bytes)`; the RNG seed is
threaded through. -/
def encrypt (data key : List Nat) (seed : Nat) :
    Except Error (List Nat × List Nat) × Nat :=
  let p := generate_nonce seed
  let body := xorKs key p.1 0 data
  (Except.ok (body ++ tagFn key p.1 body, p.1), p.2)

/-- `decrypt` (crypto.rs lines 76-83): AES-256-GCM decryption (modelled:
split off and check the 16-byte tag, then undo the keystream XOR), with
any cipher failure mapped to `Error::DecryptionError`. -/
def decrypt (ciphertext key nonce : List Nat) : Except Error (List Nat) :=
  if ciphertext.length < TAG_SIZE then
    Except.error (Error.DecryptionError "aead::Error")
  else
    let body := ciphertext.take (ciphertext.length - TAG_SIZE)
    let tag := ciphertext.drop (ciphertext.length - TAG_SIZE)
    if tag = tagFn key nonce body then Except.ok (xorKs key nonce 0 body)
    else Except.error (Error.DecryptionError "aead::Error")

/-- `compute_hash` (crypto.rs lines 86-90): `hex::encode(Sha256(data))`. -/
def compute_hash (data : List Nat) : String :=
  hexEncode (sha256 data)

/-- The loop body of `encrypt_large_file`: encrypt each chunk in order
with `encrypt(chunk, key)?`, threading the RNG seed. -/
def encryptChunksGo (key : List Nat) :
    List (List Nat) → Nat → Except Error (List (List Nat × List Nat)) × Nat
  | [], seed => (Except.ok [], seed)
  | c :: cs, seed =>
    match encrypt c key seed with
    | (Except.error e, seed1) => (Except.error e, seed1)
    | (Except.ok p, seed1) =>
      match encryptChunksGo key cs seed1 with
      | (Except.error e, seed2) => (Except.error e, seed2)
      | (Except.ok rest, seed2) => (Except.ok (p :: rest), seed2)

/-- `encrypt_large_file` (crypto.rs lines 93-102): splits `data` into
`CHUNK_SIZE` chunks and encrypts each in order. -/
def encrypt_large_file (data key : List Nat) (seed : Nat) :
    Except Error (List (List Nat × List Nat)) × Nat :=
  encryptChunksGo key (chunksOf CHUNK_SIZE data) seed

/-- `decrypt_large_file` (crypto.rs lines 105-117): decrypts each
`(ciphertext, nonce)` chunk in order with `decrypt(..)?` — aborting at
the first failure — and concatenates the plaintexts. -/
def decrypt_large_file :
    List (List Nat × List Nat) → List Nat → Except Error (List Nat)
  | [], _ => Except.ok []
  | (ct, nonce) :: rest, key =>
    match decrypt ct key nonce with
    | Except.error e => Except.error e
    | Except.ok d =>
      match decrypt_large_file rest key with
      | Except.error e => Except.error e
      | Except.ok ds => Except.ok (d ++ ds)

/-! ## Sync engine (`src/sync.rs`) -/

/-- `FileWatcher` (sync.rs lines 20-22): the set of watched paths, as
the `Vec<PathBuf>` it is in the source (`PathBuf` as `String`). -/
structure FileWatcher where
  watched_paths : List String
deriving DecidableEq, Repr

/-- `FileWatcher::new` (sync.rs lines 26-30). -/
def FileWatcher.new : FileWatcher := ⟨[]⟩

/-- `FileWatcher::add_path` (sync.rs lines 33-38): pushes the path only
when not already present, and always returns `Ok(())`. -/
def FileWatcher.add_path (w : FileWatcher) (path : String) :
    FileWatcher × Except Error Unit :=
  (if w.watched_paths.contains path then w
   else ⟨w.watched_paths ++ [path]⟩,
   Except.ok ())

/-- `compute_file_hash` (sync.rs lines 59-67): reads the file's bytes
(filesystem passed as `readFile`, `fs::read(path)?`) and returns
`hex::encode(Sha256(data))`. -/
def compute_file_hash (readFile : String → Except Error (List Nat))
    (path : String) : Except Error String :=
  match readFile path with
  | Except.error e => Except.error e
  | Except.ok data => Except.ok (hexEncode (sha256 data))

/-- `detect_changes` (sync.rs lines 70-73): true iff the freshly
computed local hash differs from the supplied remote hash. -/
def detect_changes (readFile : String → Except Error (List Nat))
    (local_path : String) (remote_hash : String) : Except Error Bool :=
  match compute_file_hash readFile local_path with
  | Except.error e => Except.error e
  | Except.ok local_hash => Except.ok (local_hash != remote_hash)

/-- `ConflictResolution` (sync.rs lines 76-86). -/
inductive ConflictResolution where
  | LastWriteWins
  | Manual
  | KeepLocal
  | KeepRemote
deriving DecidableEq, Repr

/-- `resolve_conflict` (sync.rs lines 89-112).  The filesystem's
`fs::metadata(path)?.modified()?` is the explicit `mtime` argument
(`SystemTime` as `Nat`); under `LastWriteWins` the strictly later local
mtime wins and a tie goes to remote; `KeepLocal`/`KeepRemote`/`Manual`
return a side without consulting `mtime`. -/
def resolve_conflict (mtime : String → Except Error Nat)
    (strategy : ConflictResolution)
    (local_path remote_path : String) : Except Error String :=
  match strategy with
  | ConflictResolution.LastWriteWins =>
    match mtime local_path with
    | Except.error e => Except.error e
    | Except.ok local_modified =>
      match mtime remote_path with
      | Except.error e => Except.error e
      | Except.ok remote_modified =>
        Except.ok
          (if remote_modified < local_modified then local_path
           else remote_path)
  | ConflictResolution.KeepLocal => Except.ok local_path
  | ConflictResolution.KeepRemote => Except.ok remote_path
  | ConflictResolution.Manual => Except.ok local_path

/-! ## Structural lemmas -/

theorem sha256Round_length (st : List Nat) (kw : Nat × Nat) :
    (sha256Round st kw).length = 8 := rfl

theorem foldl_sha256Round_length (l : List (Nat × Nat)) :
    ∀ st : List Nat, st.length = 8 → (l.foldl sha256Round st).length = 8 := by
  induction l with
  | nil => intro st h; simpa using h
  | cons a t ih =>
    intro st h
    simpa [List.foldl_cons] using ih (sha256Round st a) (sha256Round_length st a)

theorem sha256Compress_length (h block : List Nat) (hh : h.length = 8) :
    (sha256Compress h block).length = 8 := by
  have hst := foldl_sha256Round_length
    (K256.zip (scheduleStep^[48] (bytesToWords block))) h hh
  simp only [sha256Compress]
  rw [List.length_zipWith, hh, hst]
  simp

theorem foldl_sha256Compress_length (blocks : List (List Nat)) :
    ∀ h : List Nat, h.length = 8 →
      (blocks.foldl sha256Compress h).length = 8 := by
  induction blocks with
  | nil => intro h hh; simpa using hh
  | cons b t ih =>
    intro h hh
    simpa [List.foldl_cons] using ih (sha256Compress h b)
      (sha256Compress_length h b hh)

theorem flatMap_wordToBytes_length (l : List Nat) :
    (l.flatMap wordToBytes).length = 4 * l.length := by
  induction l with
  | nil => rfl
  | cons a t ih => simp [List.flatMap_cons, ih, wordToBytes]; omega

theorem sha256_length (ms : List Nat) : (sha256 ms).length = 32 := by
  unfold sha256
  rw [flatMap_wordToBytes_length,
    foldl_sha256Compress_length (chunksOf 64 (padMessage ms)) H256 rfl]

theorem chunksOf_join_aux (s : Nat) (hs : 0 < s) :
    ∀ (n : Nat) (l : List Nat), l.length ≤ n → (chunksOf s l).flatten = l := by
  intro n
  induction n with
  | zero =>
    intro l hl
    have hl0 : l = [] := List.eq_nil_of_length_eq_zero (Nat.le_zero.mp hl)
    subst hl0
    rw [chunksOf]
    split <;> simp
  | succ n ih =>
    intro l hl
    rw [chunksOf, if_neg hs.ne']
    by_cases hl0 : l.isEmpty
    · rw [if_pos hl0]
      simp [List.isEmpty_iff.mp hl0]
    · rw [if_neg hl0]
      have hlen : 0 < l.length := by
        cases l with
        | nil => simp at hl0
        | cons a t => simp
      have hdrop : (l.drop s).length ≤ n := by
        simp only [List.length_drop]; omega
      simp only [List.flatten_cons, ih (l.drop s) hdrop]
      exact List.take_append_drop s l

theorem chunksOf_join (s : Nat) (hs : 0 < s) (l : List Nat) :
    (chunksOf s l).flatten = l :=
  chunksOf_join_aux s hs l.length l le_rfl

theorem chunksOf_length_aux (s : Nat) (hs : 0 < s) :
    ∀ (n : Nat) (l : List Nat), l.length ≤ n →
      (chunksOf s l).length = (l.length + s - 1) / s := by
  intro n
  induction n with
  | zero =>
    intro l hl
    have hl0 : l = [] := List.eq_nil_of_length_eq_zero (Nat.le_zero.mp hl)
    subst hl0
    rw [chunksOf]
    have : (0 + s - 1) / s = 0 := Nat.div_eq_of_lt (by omega)
    split <;> simp_all
  | succ n ih =>
    intro l hl
    rw [chunksOf, if_neg hs.ne']
    by_cases hl0 : l.isEmpty
    · rw [if_pos hl0]
      have : l = [] := List.isEmpty_iff.mp hl0
      subst this
      have hz : (s - 1) / s = 0 := Nat.div_eq_of_lt (by omega)
      simp [hz]
    · rw [if_neg hl0]
      have hlen : 0 < l.length := by
        cases l with
        | nil => simp at hl0
        | cons a t => simp
      have hdrop : (l.drop s).length ≤ n := by
        simp only [List.length_drop]; omega
      simp only [List.length_cons, ih (l.drop s) hdrop, List.length_drop]
      have hrhs : l.length + s - 1 = (l.length - 1) + s := by omega
      rw [hrhs, Nat.add_div_right _ hs]
      rcases le_or_lt l.length s with hle | hlt
      · have h1 : l.length - s = 0 := by omega
        rw [h1, Nat.div_eq_of_lt (show 0 + s - 1 < s by omega),
          Nat.div_eq_of_lt (show l.length - 1 < s by omega)]
      · have h2 : l.length - s + s - 1 = (l.length - 1 - s) + s := by omega
        have h3 : l.length - 1 = (l.length - 1 - s) + s := by omega
        rw [h2, Nat.add_div_right _ hs, h3, Nat.add_div_right _ hs]
        simp [Nat.add_sub_cancel]

theorem chunksOf_length (s : Nat) (hs : 0 < s) (l : List Nat) :
    (chunksOf s l).length = (l.length + s - 1) / s :=
  chunksOf_length_aux s hs l.length l le_rfl

theorem xorKs_length (key nonce : List Nat) :
    ∀ (i : Nat) (bs : List Nat), (xorKs key nonce i bs).length = bs.length := by
  intro i bs
  induction bs generalizing i with
  | nil => rfl
  | cons b t ih => simp [xorKs, ih]

theorem xorKs_xorKs (key nonce : List Nat) :
    ∀ (i : Nat) (bs : List Nat),
      xorKs key nonce i (xorKs key nonce i bs) = bs := by
  intro i bs
  induction bs generalizing i with
  | nil => rfl
  | cons b t ih => simp [xorKs, Nat.xor_cancel_right, ih]

theorem tagFn_length (key nonce body : List Nat) :
    (tagFn key nonce body).length = TAG_SIZE := by
  simp [tagFn]

/-- Core AEAD round-trip for the modelled cipher with the repository's
`encrypt`/`decrypt`: encryption always succeeds, advances the RNG seed by
one, produces a ciphertext 16 bytes longer than the plaintext and a
12-byte nonce, and `decrypt` undoes it under the same key and nonce. -/
theorem decrypt_encrypt (data key : List Nat) (seed : Nat) :
    ∃ ct nonce,
      encrypt data key seed = (Except.ok (ct, nonce), seed + 1) ∧
      ct.length = data.length + TAG_SIZE ∧
      nonce.length = NONCE_SIZE ∧
      decrypt ct key nonce = Except.ok data := by
  refine ⟨xorKs key (generate_nonce seed).1 0 data ++
      tagFn key (generate_nonce seed).1 (xorKs key (generate_nonce seed).1 0 data),
    (generate_nonce seed).1, ?_, ?_, ?_, ?_⟩
  · rfl
  · simp [List.length_append, xorKs_length, tagFn_length]
  · simp [generate_nonce, NONCE_SIZE]
  · have hbody : (xorKs key (generate_nonce seed).1 0 data).length
        = data.length := xorKs_length _ _ _ _
    have hct : (xorKs key (generate_nonce seed).1 0 data ++
        tagFn key (generate_nonce seed).1
          (xorKs key (generate_nonce seed).1 0 data)).length
        = data.length + TAG_SIZE := by
      simp [List.length_append, hbody, tagFn_length]
    unfold decrypt
    rw [if_neg (by omega : ¬ (xorKs key (generate_nonce seed).1 0 data ++
        tagFn key (generate_nonce seed).1
          (xorKs key (generate_nonce seed).1 0 data)).length < TAG_SIZE)]
    have hsub : (xorKs key (generate_nonce seed).1 0 data ++
        tagFn key (generate_nonce seed).1
          (xorKs key (generate_nonce seed).1 0 data)).length - TAG_SIZE
        = (xorKs key (generate_nonce seed).1 0 data).length := by omega
    rw [hsub, List.take_left, List.drop_left, if_pos rfl, xorKs_xorKs]

/-- `encryptChunksGo` always succeeds, yields one output pair per input
chunk, and `decrypt_large_file` of its output recovers the concatenation
of the chunks. -/
theorem encryptChunksGo_spec (key : List Nat) :
    ∀ (cs : List (List Nat)) (seed : Nat),
      ∃ out seed2,
        encryptChunksGo key cs seed = (Except.ok out, seed2) ∧
        out.length = cs.length ∧
        decrypt_large_file out key = Except.ok cs.flatten := by
  intro cs
  induction cs with
  | nil => intro seed; exact ⟨[], seed, rfl, rfl, rfl⟩
  | cons c rest ih =>
    intro seed
    obtain ⟨ct, nonce, henc, hctlen, hnlen, hdec⟩ := decrypt_encrypt c key seed
    obtain ⟨out, seed2, hgo, hlen, hdlf⟩ := ih (seed + 1)
    refine ⟨(ct, nonce) :: out, seed2, ?_, ?_, ?_⟩
    · simp [encryptChunksGo, henc, hgo]
    · simp [hlen]
    · simp [decrypt_large_file, hdec, hdlf, List.flatten_cons]

/-! ## Claim theorems -/

/-- C1: for every byte sequence and 32-byte key, decrypting the output of
chunked encryption reproduces the input exactly, and the number of chunks
equals `ceil(len / CHUNK_SIZE)` with the fixed 1 MiB chunk size — so an
empty input yields zero chunks and a trailing byte yields one short final
chunk, never a dropped chunk. -/
theorem claim_c1_chunk_roundtrip (data key : List Nat) (seed : Nat)
    (hkey : key.length = 32) :
    ∃ chunks seed2,
      encrypt_large_file data key seed = (Except.ok chunks, seed2) ∧
      decrypt_large_file chunks key = Except.ok data ∧
      chunks.length = (data.length + CHUNK_SIZE - 1) / CHUNK_SIZE := by
  obtain ⟨out, seed2, hgo, hlen, hdec⟩ :=
    encryptChunksGo_spec key (chunksOf CHUNK_SIZE data) seed
  have hpos : 0 < CHUNK_SIZE := by norm_num [CHUNK_SIZE]
  refine ⟨out, seed2, hgo, ?_, ?_⟩
  · rw [hdec, chunksOf_join CHUNK_SIZE hpos data]
  · rw [hlen, chunksOf_length CHUNK_SIZE hpos data]

theorem claim_c1_witness :
    (List.replicate 32 7 : List Nat).length = 32 ∧
    ∃ chunks seed2,
      encrypt_large_file [1, 2, 3] (List.replicate 32 7) 0
        = (Except.ok chunks, seed2) ∧
      decrypt_large_file chunks (List.replicate 32 7) = Except.ok [1, 2, 3] ∧
      chunks.length
        = (([1, 2, 3] : List Nat).length + CHUNK_SIZE - 1) / CHUNK_SIZE :=
  ⟨by decide, claim_c1_chunk_roundtrip [1, 2, 3] (List.replicate 32 7) 0 (by decide)⟩

/-- C2: for every byte sequence and 32-byte key, decrypting the
ciphertext produced by `encrypt` with the same key and the nonce
`encrypt` returned yields the plaintext back. -/
theorem claim_c2_encrypt_roundtrip (data key : List Nat) (seed : Nat)
    (hkey : key.length = 32) :
    ∃ ct nonce seed2,
      encrypt data key seed = (Except.ok (ct, nonce), seed2) ∧
      decrypt ct key nonce = Except.ok data := by
  obtain ⟨ct, nonce, henc, _, _, hdec⟩ := decrypt_encrypt data key seed
  exact ⟨ct, nonce, seed + 1, henc, hdec⟩

theorem claim_c2_witness :
    (List.replicate 32 9 : List Nat).length = 32 ∧
    ∃ ct nonce seed2,
      encrypt [104, 105] (List.replicate 32 9) 5
        = (Except.ok (ct, nonce), seed2) ∧
      decrypt ct (List.replicate 32 9) nonce = Except.ok [104, 105] :=
  ⟨by decide, claim_c2_encrypt_roundtrip [104, 105] (List.replicate 32 9) 5 (by decide)⟩

/-- C9: for every plaintext and 32-byte key, the ciphertext returned by
`encrypt` is exactly 16 bytes (`TAG_SIZE`, the appended authentication
tag) longer than the plaintext, and the returned nonce is exactly 12
bytes. -/
theorem claim_c9_ciphertext_layout (data key : List Nat) (seed : Nat)
    (hkey : key.length = 32) :
    ∃ ct nonce seed2,
      encrypt data key seed = (Except.ok (ct, nonce), seed2) ∧
      ct.length = data.length + 16 ∧ nonce.length = 12 := by
  obtain ⟨ct, nonce, henc, hctlen, hnlen, _⟩ := decrypt_encrypt data key seed
  exact ⟨ct, nonce, seed + 1, henc, hctlen, hnlen⟩

theorem claim_c9_witness :
    (List.replicate 32 1 : List Nat).length = 32 ∧
    ∃ ct nonce seed2,
      encrypt [42] (List.replicate 32 1) 3 = (Except.ok (ct, nonce), seed2) ∧
      ct.length = [42].length + 16 ∧ nonce.length = 12 :=
  ⟨by decide, claim_c9_ciphertext_layout [42] (List.replicate 32 1) 3 (by decide)⟩

/-- C7: for every password and 16-byte salt, `derive_key` succeeds with a
32-byte key (no validation error path), and it is deterministic: the same
`(password, salt)` pair always yields the same key. -/
theorem claim_c7_derive_key (password salt : List Nat)
    (hsalt : salt.length = 16) :
    ∃ k, derive_key password salt = Except.ok k ∧ k.length = 32 ∧
      derive_key password salt = derive_key password salt :=
  ⟨sha256 (password ++ salt), rfl, sha256_length (password ++ salt), rfl⟩

theorem claim_c7_witness :
    (List.replicate 16 0 : List Nat).length = 16 ∧
    ∃ k, derive_key [112, 119] (List.replicate 16 0) = Except.ok k ∧
      k.length = 32 ∧
      derive_key [112, 119] (List.replicate 16 0)
        = derive_key [112, 119] (List.replicate 16 0) :=
  ⟨by decide, claim_c7_derive_key [112, 119] (List.replicate 16 0) (by decide)⟩

/-- C4 counterexample: on a malformed stored hash, `verify_password` does
NOT return `Ok(false)`; the `?` on the parse at crypto.rs line 55
propagates an `EncryptionError` instead. -/
theorem claim_c4_counterexample :
    verify_password "hunter2" "not-a-phc-hash"
      = Except.error (Error.EncryptionError "password hash string invalid") ∧
    parsePasswordHash "not-a-phc-hash"
      = Except.error "password hash string invalid" ∧
    verify_password "hunter2" "not-a-phc-hash" ≠ Except.ok false := by
  refine ⟨by decide, by decide, by decide⟩

/-- C4 (amended): for every password and every stored hash that fails the
PHC parse, `verify_password` propagates the parse failure as
`Err(EncryptionError)` — a parse error path, not a successful `false`. -/
theorem claim_c4_amended (password h msg : String)
    (hparse : parsePasswordHash h = Except.error msg) :
    verify_password password h
      = Except.error (Error.EncryptionError msg) := by
  unfold verify_password
  rw [hparse]

theorem claim_c4_witness :
    parsePasswordHash "" = Except.error "password hash string invalid" ∧
    verify_password "pw" ""
      = Except.error (Error.EncryptionError "password hash string invalid") :=
  ⟨by decide, claim_c4_amended "pw" "" "password hash string invalid" (by decide)⟩

/-- The modelled cipher fails only with `Error.DecryptionError`, as
`decrypt` wraps every cipher failure in it (crypto.rs line 82). -/
theorem decrypt_error_shape (ct key nonce : List Nat) (e : Error)
    (h : decrypt ct key nonce = Except.error e) :
    ∃ msg, e = Error.DecryptionError msg := by
  unfold decrypt at h
  by_cases h1 : ct.length < TAG_SIZE
  · rw [if_pos h1] at h
    exact ⟨"aead::Error", (Except.error.inj h).symm⟩
  · rw [if_neg h1] at h
    dsimp only at h
    by_cases h2 : List.drop (ct.length - TAG_SIZE) ct
        = tagFn key nonce (List.take (ct.length - TAG_SIZE) ct)
    · rw [if_pos h2] at h
      exact absurd h (by simp)
    · rw [if_neg h2] at h
      exact ⟨"aead::Error", (Except.error.inj h).symm⟩

/-- If every chunk before index `j` decrypts and chunk `j` fails with
`e`, reassembly stops at `j` and returns `e`. -/
theorem decrypt_large_file_first_error (key : List Nat) :
    ∀ (chunks : List (List Nat × List Nat)) (j : Nat) (e : Error),
      j < chunks.length →
      (∀ i, i < j →
        (decrypt (chunks.getD i ([], [])).1 key
          (chunks.getD i ([], [])).2).isOk = true) →
      decrypt (chunks.getD j ([], [])).1 key (chunks.getD j ([], [])).2
        = Except.error e →
      decrypt_large_file chunks key = Except.error e := by
  intro chunks
  induction chunks with
  | nil => intro j e hj _ _; exact absurd hj (Nat.not_lt_zero j)
  | cons c rest ih =>
    intro j e hj hpre hfail
    obtain ⟨ct, nonce⟩ := c
    cases j with
    | zero =>
      simp only [List.getD_cons_zero] at hfail
      simp [decrypt_large_file, hfail]
    | succ k =>
      have h0 := hpre 0 (Nat.succ_pos k)
      simp only [List.getD_cons_zero] at h0
      obtain ⟨v, hv⟩ : ∃ v, decrypt ct key nonce = Except.ok v := by
        cases hd : decrypt ct key nonce with
        | ok v => exact ⟨v, rfl⟩
        | error e2 => rw [hd] at h0; simp [Except.isOk, Except.toBool] at h0
      have hrec := ih k e (by simpa using hj)
        (fun i hi => by simpa using hpre (i + 1) (Nat.succ_lt_succ hi))
        (by simpa using hfail)
      simp [decrypt_large_file, hv, hrec]

/-- C5: if decryption of some chunk fails while all earlier chunks
decrypt, `decrypt_large_file` returns the `DecryptionError` of the first
failing chunk and no bytes at all — plaintext of the preceding chunks is
never exposed. -/
theorem claim_c5_first_failure_aborts
    (chunks : List (List Nat × List Nat)) (key : List Nat) (j : Nat)
    (hj : j < chunks.length)
    (hpre : ∀ i, i < j →
      (decrypt (chunks.getD i ([], [])).1 key
        (chunks.getD i ([], [])).2).isOk = true)
    (e : Error)
    (hfail : decrypt (chunks.getD j ([], [])).1 key (chunks.getD j ([], [])).2
      = Except.error e) :
    decrypt_large_file chunks key = Except.error e ∧
    ∃ msg, e = Error.DecryptionError msg :=
  ⟨decrypt_large_file_first_error key chunks j e hj hpre hfail,
   decrypt_error_shape _ _ _ e hfail⟩

/-- Concrete 12-byte nonce for the C5 witness. -/
def c5nonce : List Nat := List.replicate 12 0

/-- A ciphertext that decrypts (to the empty plaintext) under the empty
key and `c5nonce`: it is exactly the 16-byte tag over an empty body. -/
def c5good : List Nat := tagFn [] c5nonce []

theorem claim_c5_witness :
    1 < ([(c5good, c5nonce), ([], c5nonce)]
      : List (List Nat × List Nat)).length ∧
    (decrypt_large_file [(c5good, c5nonce), ([], c5nonce)] []
        = Except.error (Error.DecryptionError "aead::Error") ∧
      ∃ msg, Error.DecryptionError "aead::Error"
        = Error.DecryptionError msg) :=
  ⟨by decide,
   claim_c5_first_failure_aborts [(c5good, c5nonce), ([], c5nonce)] [] 1
     (by decide) (by decide) (Error.DecryptionError "aead::Error") (by decide)⟩

/-- C3: with both modification times available, `LastWriteWins` returns
the local side iff its mtime is strictly greater (ties to remote), and
`KeepLocal`/`KeepRemote` return the named side regardless of mtimes. -/
theorem claim_c3_resolve_conflict (mtime : String → Except Error Nat)
    (local_path remote_path : String) (t1 t2 : Nat)
    (h1 : mtime local_path = Except.ok t1)
    (h2 : mtime remote_path = Except.ok t2) :
    resolve_conflict mtime ConflictResolution.LastWriteWins
        local_path remote_path
      = Except.ok (if t2 < t1 then local_path else remote_path) ∧
    (local_path ≠ remote_path →
      (resolve_conflict mtime ConflictResolution.LastWriteWins
          local_path remote_path = Except.ok local_path ↔ t2 < t1)) ∧
    resolve_conflict mtime ConflictResolution.KeepLocal
        local_path remote_path = Except.ok local_path ∧
    resolve_conflict mtime ConflictResolution.KeepRemote
        local_path remote_path = Except.ok remote_path := by
  have hlww : resolve_conflict mtime ConflictResolution.LastWriteWins
      local_path remote_path
      = Except.ok (if t2 < t1 then local_path else remote_path) := by
    simp [resolve_conflict, h1, h2]
  refine ⟨hlww, ?_, rfl, rfl⟩
  intro hne
  constructor
  · intro h
    by_contra hle
    rw [hlww, if_neg hle] at h
    exact hne (Except.ok.inj h).symm
  · intro hlt
    rw [hlww, if_pos hlt]

/-- Filesystem mtimes for the C3 witness. -/
def c3mtime : String → Except Error Nat := fun p =>
  if p = "a.txt" then Except.ok 5 else Except.ok 3

theorem claim_c3_witness :
    c3mtime "a.txt" = Except.ok 5 ∧ c3mtime "b.txt" = Except.ok 3 ∧
    (resolve_conflict c3mtime ConflictResolution.LastWriteWins "a.txt" "b.txt"
        = Except.ok (if 3 < 5 then "a.txt" else "b.txt") ∧
      ("a.txt" ≠ "b.txt" →
        (resolve_conflict c3mtime ConflictResolution.LastWriteWins
            "a.txt" "b.txt" = Except.ok "a.txt" ↔ 3 < 5)) ∧
      resolve_conflict c3mtime ConflictResolution.KeepLocal "a.txt" "b.txt"
        = Except.ok "a.txt" ∧
      resolve_conflict c3mtime ConflictResolution.KeepRemote "a.txt" "b.txt"
        = Except.ok "b.txt") :=
  ⟨by decide, by decide,
   claim_c3_resolve_conflict c3mtime "a.txt" "b.txt" 5 3 (by decide) (by decide)⟩

/-- Filesystem mtimes for the C6 counterexample: the local side's
metadata is unobtainable (an I/O error), the remote side's is fine. -/
def c6mtime : String → Except Error Nat := fun p =>
  if p = "remote.txt" then Except.ok 0 else Except.error (Error.IoError "os error 2")

/-- C6 counterexample: with only the local side's metadata unobtainable
(the remote mtime IS obtainable), `resolve_conflict` under
`LastWriteWins` still fails, and the error it fails with is the
propagated I/O error, not a `ConflictError` — refuting both directions of
the claim. -/
theorem claim_c6_counterexample :
    resolve_conflict c6mtime ConflictResolution.LastWriteWins
        "local.txt" "remote.txt"
      = Except.error (Error.IoError "os error 2") ∧
    c6mtime "remote.txt" = Except.ok 0 ∧
    ∀ msg, Error.IoError "os error 2" ≠ Error.ConflictError msg := by
  refine ⟨by decide, by decide, ?_⟩
  intro msg h
  exact Error.noConfusion h

/-- C6 (amended): `resolve_conflict` fails only under `LastWriteWins`
and only by propagating a metadata error — from the local side (checked
first) or, with the local mtime available, from the remote side — and
conversely it DOES fail whenever either side's metadata is unobtainable
under `LastWriteWins`, with exactly that propagated error; it never
constructs a `ConflictError`; whenever both sides' metadata is
obtainable it succeeds with a winner, as it does under every other
strategy. -/
theorem claim_c6_amended (mtime : String → Except Error Nat)
    (strategy : ConflictResolution) (local_path remote_path : String) :
    (∀ e, resolve_conflict mtime strategy local_path remote_path
        = Except.error e →
      strategy = ConflictResolution.LastWriteWins ∧
      (mtime local_path = Except.error e ∨
        ∃ t, mtime local_path = Except.ok t ∧
          mtime remote_path = Except.error e)) ∧
    (∀ e, mtime local_path = Except.error e →
      resolve_conflict mtime ConflictResolution.LastWriteWins
          local_path remote_path = Except.error e) ∧
    (∀ t e, mtime local_path = Except.ok t →
      mtime remote_path = Except.error e →
      resolve_conflict mtime ConflictResolution.LastWriteWins
          local_path remote_path = Except.error e) ∧
    (∀ t1 t2, mtime local_path = Except.ok t1 →
      mtime remote_path = Except.ok t2 →
      ∃ w, resolve_conflict mtime strategy local_path remote_path
        = Except.ok w) := by
  have hlocalFails : ∀ e, mtime local_path = Except.error e →
      resolve_conflict mtime ConflictResolution.LastWriteWins
        local_path remote_path = Except.error e := by
    intro e he
    simp [resolve_conflict, he]
  have hremoteFails : ∀ t e, mtime local_path = Except.ok t →
      mtime remote_path = Except.error e →
      resolve_conflict mtime ConflictResolution.LastWriteWins
        local_path remote_path = Except.error e := by
    intro t e ht he
    simp [resolve_conflict, ht, he]
  refine ⟨?_, hlocalFails, hremoteFails, ?_⟩
  · cases strategy with
    | LastWriteWins =>
      intro e h
      refine ⟨rfl, ?_⟩
      cases hml : mtime local_path with
      | error e2 =>
        simp [resolve_conflict, hml] at h
        exact Or.inl (by rw [h])
      | ok t1 =>
        cases hmr : mtime remote_path with
        | error e2 =>
          simp [resolve_conflict, hml, hmr] at h
          exact Or.inr ⟨t1, rfl, by rw [h]⟩
        | ok t2 => simp [resolve_conflict, hml, hmr] at h
    | KeepLocal => exact fun e h => absurd h (by simp [resolve_conflict])
    | KeepRemote => exact fun e h => absurd h (by simp [resolve_conflict])
    | Manual => exact fun e h => absurd h (by simp [resolve_conflict])
  · cases strategy with
    | LastWriteWins =>
      intro t1 t2 ha hb
      exact ⟨if t2 < t1 then local_path else remote_path,
        by simp [resolve_conflict, ha, hb]⟩
    | KeepLocal => exact fun t1 t2 _ _ => ⟨local_path, rfl⟩
    | KeepRemote => exact fun t1 t2 _ _ => ⟨remote_path, rfl⟩
    | Manual => exact fun t1 t2 _ _ => ⟨local_path, rfl⟩

/-- Filesystem mtimes for the success half of the C6 witness: both
sides obtainable. -/
def c6okmtime : String → Except Error Nat := fun _ => Except.ok 4

/-- Filesystem mtimes for the remote-failure half of the C6 witness:
the local mtime is obtainable, the remote side's is not. -/
def c6remoteErr : String → Except Error Nat := fun p =>
  if p = "local.txt" then Except.ok 7 else Except.error (Error.IoError "os error 13")

theorem claim_c6_witness :
    (ConflictResolution.LastWriteWins = ConflictResolution.LastWriteWins ∧
      (c6mtime "local.txt" = Except.error (Error.IoError "os error 2") ∨
        ∃ t, c6mtime "local.txt" = Except.ok t ∧
          c6mtime "remote.txt" = Except.error (Error.IoError "os error 2"))) ∧
    resolve_conflict c6mtime ConflictResolution.LastWriteWins
        "local.txt" "remote.txt"
      = Except.error (Error.IoError "os error 2") ∧
    resolve_conflict c6remoteErr ConflictResolution.LastWriteWins
        "local.txt" "remote.txt"
      = Except.error (Error.IoError "os error 13") ∧
    ∃ w, resolve_conflict c6okmtime ConflictResolution.LastWriteWins
        "local.txt" "remote.txt" = Except.ok w :=
  ⟨(claim_c6_amended c6mtime ConflictResolution.LastWriteWins
      "local.txt" "remote.txt").1 (Error.IoError "os error 2") (by decide),
   (claim_c6_amended c6mtime ConflictResolution.LastWriteWins
      "local.txt" "remote.txt").2.1 (Error.IoError "os error 2") (by decide),
   (claim_c6_amended c6remoteErr ConflictResolution.LastWriteWins
      "local.txt" "remote.txt").2.2.1 7 (Error.IoError "os error 13")
     (by decide) (by decide),
   (claim_c6_amended c6okmtime ConflictResolution.LastWriteWins
      "local.txt" "remote.txt").2.2.2 4 4 (by decide) (by decide)⟩

/-- C8: for every readable path, `compute_file_hash` returns exactly the
hex string `compute_hash` (Crypto Engine) returns on the file's plaintext
bytes — the two SHA-256 call sites agree — and `detect_changes` is true
iff that hash differs from the supplied remote hash. -/
theorem claim_c8_hash_agreement
    (readFile : String → Except Error (List Nat))
    (path : String) (data : List Nat) (remote_hash : String)
    (hread : readFile path = Except.ok data) :
    compute_file_hash readFile path = Except.ok (compute_hash data) ∧
    (detect_changes readFile path remote_hash = Except.ok true ↔
      compute_hash data ≠ remote_hash) := by
  have h1 : compute_file_hash readFile path
      = Except.ok (compute_hash data) := by
    simp [compute_file_hash, hread, compute_hash]
  refine ⟨h1, ?_⟩
  simp [detect_changes, h1, bne_iff_ne]

/-- Filesystem contents for the C8 witness. -/
def c8read : String → Except Error (List Nat) := fun _ => Except.ok [1, 2, 3]

theorem claim_c8_witness :
    c8read "f.txt" = Except.ok [1, 2, 3] ∧
    (compute_file_hash c8read "f.txt" = Except.ok (compute_hash [1, 2, 3]) ∧
      (detect_changes c8read "f.txt" "00" = Except.ok true ↔
        compute_hash [1, 2, 3] ≠ "00")) :=
  ⟨rfl, claim_c8_hash_agreement c8read "f.txt" [1, 2, 3] "00" rfl⟩

/-- Adding one path keeps the watched list duplicate-free. -/
theorem add_path_nodup (w : FileWatcher) (p : String)
    (h : w.watched_paths.Nodup) :
    ((FileWatcher.add_path w p).1).watched_paths.Nodup := by
  by_cases hm : p ∈ w.watched_paths
  · have hc : w.watched_paths.contains p = true := List.elem_iff.mpr hm
    simp [FileWatcher.add_path, hc, hm, h]
  · have hc : w.watched_paths.contains p = false := by
      rw [Bool.eq_false_iff]
      intro hct
      exact hm (List.elem_iff.mp hct)
    simp [FileWatcher.add_path, hc, List.nodup_append, h, hm]

/-- Every watcher built by a sequence of `add_path` calls from
`FileWatcher::new`. -/
def addAll (ps : List String) : FileWatcher :=
  ps.foldl (fun w p => (FileWatcher.add_path w p).1) FileWatcher.new

theorem addAll_go_nodup :
    ∀ (ps : List String) (w : FileWatcher), w.watched_paths.Nodup →
      ((ps.foldl (fun w p => (FileWatcher.add_path w p).1) w)).watched_paths.Nodup := by
  intro ps
  induction ps with
  | nil => intro w h; simpa using h
  | cons a t ih =>
    intro w h
    simpa [List.foldl_cons] using ih ((FileWatcher.add_path w a).1)
      (add_path_nodup w a h)

/-- C10: `add_path` always returns `Ok`, adding an already-watched path
leaves the watcher unchanged, and any sequence of `add_path` calls from
`FileWatcher::new` leaves the watched-path set duplicate-free. -/
theorem claim_c10_watcher (w : FileWatcher) (p : String) (ps : List String) :
    (w.add_path p).2 = Except.ok () ∧
    (p ∈ w.watched_paths → (w.add_path p).1 = w) ∧
    (addAll ps).watched_paths.Nodup := by
  refine ⟨rfl, ?_, addAll_go_nodup ps FileWatcher.new List.nodup_nil⟩
  intro hp
  have hc : w.watched_paths.contains p = true := List.elem_iff.mpr hp
  simp [FileWatcher.add_path, hc, hp]

theorem claim_c10_witness :
    ((FileWatcher.mk ["x"]).add_path "x").2 = Except.ok () ∧
    ("x" ∈ (FileWatcher.mk ["x"]).watched_paths →
      ((FileWatcher.mk ["x"]).add_path "x").1 = FileWatcher.mk ["x"]) ∧
    (addAll ["a", "b", "a"]).watched_paths.Nodup :=
  claim_c10_watcher (FileWatcher.mk ["x"]) "x" ["a", "b", "a"]

end RustGuard
